import Mathlib

/-!
Shallow embedding of the stock_scanner repository's signal-detection and
backtesting core (src/backtest/ma_sensitivity.py, src/scanners/base.py,
src/scanners/entry_point.py, src/scanners/ma_pullback.py,
src/scanners/strong_pullback.py), with all float arithmetic carried out
exactly over the rationals.  Pandas NaN values (insufficient rolling-mean
warmup) are modelled as Option.none; every comparison against none is false,
matching pandas comparison semantics with NaN.
-/

/-- Rounding of a rational to the nearest integer, ties to even, modelling
Python's round applied to an exact decimal value. -/
def roundHalfEven (x : ℚ) : ℤ :=
  let f := ⌊x⌋
  let r := x - (f : ℚ)
  if r < 1/2 then f
  else if 1/2 < r then f + 1
  else if Even f then f else f + 1

set_option maxRecDepth 8000

/-- Python round(x, d) over exact rationals. -/
def roundTo (d : ℕ) (x : ℚ) : ℚ :=
  ((roundHalfEven (x * 10 ^ d) : ℚ)) / 10 ^ d

/-- One OHLCV price bar.  The date is a day number; pandas weekly resampling
buckets by calendar week, modelled as date / 7. -/
structure Bar where
  date : ℕ
  Open : ℚ
  High : ℚ
  Low : ℚ
  Close : ℚ
  Volume : ℚ
deriving DecidableEq, Repr

/-- Default bar used for out-of-range list access (all in-range accesses in
the embedded code are guarded by the same length checks as the source). -/
def dBar : Bar := ⟨0, 0, 0, 0, 0, 0⟩

/-- Positional row access, ohlcv.iloc[i]. -/
def barAt (bars : List Bar) (i : ℕ) : Bar := bars.getD i dBar

/-- Close column of the frame. -/
def closesOf (bars : List Bar) : List ℚ := bars.map Bar.Close

/-- Simple rolling mean close.rolling(p).mean() evaluated at index i:
the arithmetic mean of the p closes ending at i, none (NaN) during warmup. -/
def rmean (closes : List ℚ) (p i : ℕ) : Option ℚ :=
  if 1 ≤ p ∧ p ≤ i + 1 ∧ i < closes.length then
    some (((closes.drop (i + 1 - p)).take p).sum / (p : ℚ))
  else none

/-- Pandas comparison a > b where either side may be NaN (none): any
comparison involving NaN is false. -/
def optGT : Option ℚ → Option ℚ → Bool
  | some a, some b => decide (b < a)
  | _, _ => false

/-- The shared touch predicate of ma_sensitivity.py line 113,
strong_pullback.py lines 124-129 and entry_point.py line 169:
dist_pct = (low - ma) / ma * 100; touch iff abs(dist_pct) <= touch_pct
or dist_pct <= 0. -/
def isTouch (lowv mav pct : ℚ) : Bool :=
  decide (|(lowv - mav) / mav * 100| ≤ pct) || decide ((lowv - mav) / mav * 100 ≤ 0)

/-- EntryPointScanner._detect_hammer (entry_point.py lines 63-91). -/
def detectHammer (wickBodyMult upperWickMax o h l c : ℚ) : Bool :=
  let totalRange := h - l
  if totalRange ≤ 0 then false
  else
    let body := |c - o|
    let bodyTop := max c o
    let bodyBottom := min c o
    let lowerWick := bodyBottom - l
    let upperWick := h - bodyTop
    if body < totalRange * (5/100) then
      decide (totalRange * (6/10) < lowerWick) && decide (upperWick < totalRange * upperWickMax)
    else
      decide (body * wickBodyMult ≤ lowerWick) && decide (upperWick < totalRange * upperWickMax)

/-- Maximum of a list of rationals, series.max() (0 only for the empty list,
which the source never takes a maximum of on the paths embedded here). -/
def maxQ : List ℚ → ℚ
  | [] => 0
  | x :: xs => xs.foldl max x

/-- Minimum of a list of rationals, series.min(). -/
def minQ : List ℚ → ℚ
  | [] => 0
  | x :: xs => xs.foldl min x

/-- Configuration of backtest_ma_sensitivity (ma_sensitivity.py lines 45-53). -/
structure BTParams where
  ma_periods : List ℕ
  trend_ma : ℕ
  touch_pct : ℚ
  hold_days : ℕ
  cooldown : ℕ
  strategy : String
deriving DecidableEq, Repr

/-- The bounce strategy _bounce_return (ma_sensitivity.py lines 15-22):
percent return from touch-day close to close hold_days later, none when
there is not enough forward data. -/
def bounceReturn (bars : List Bar) (touchIdx holdDays : ℕ) : Option ℚ :=
  if bars.length ≤ touchIdx + holdDays then none
  else
    let entryPrice := (barAt bars touchIdx).Close
    let exitPrice := (barAt bars (touchIdx + holdDays)).Close
    some ((exitPrice - entryPrice) / entryPrice * 100)

/-- The max_return strategy _bounce_max_return (ma_sensitivity.py lines
25-32): best high-watermark exit over highs[touch_idx+1 .. touch_idx+hold].
Pandas yields NaN for the maximum of an empty window (hold_days = 0);
that NaN outcome is modelled as none. -/
def maxReturn (bars : List Bar) (touchIdx holdDays : ℕ) : Option ℚ :=
  if bars.length ≤ touchIdx + holdDays then none
  else
    match ((bars.drop (touchIdx + 1)).take holdDays).map Bar.High with
    | [] => none
    | x :: xs =>
      let entryPrice := (barAt bars touchIdx).Close
      some ((xs.foldl max x - entryPrice) / entryPrice * 100)

/-- STRATEGIES.get(strategy, _bounce_return): strategy lookup with silent
fallback to bounce for unknown names (ma_sensitivity.py lines 35-38, 70). -/
def stratFn : String → List Bar → ℕ → ℕ → Option ℚ
  | "max_return" => maxReturn
  | _ => bounceReturn

/-- Python sorted(ma_periods). -/
def sortedPeriods (ps : List ℕ) : List ℕ := ps.insertionSort (· ≤ ·)

/-- Strict descending chain check over the sorted MA values followed by the
trend MA value (ma_sensitivity.py lines 100-102): all(ma_values[j] >
ma_values[j+1]) and ma_values[-1] > trend_val.  The empty-periods case
(where Python would fault on ma_values[-1]) is false. -/
def alignedValsChain : List (Option ℚ) → Option ℚ → Bool
  | [], _ => false
  | [v], t => optGT v t
  | v :: w :: rest, t => optGT v w && alignedValsChain (w :: rest) t

/-- Trend-alignment check of the backtest main loop at bar i. -/
def alignedAtBT (P : BTParams) (bars : List Bar) (i : ℕ) : Bool :=
  let cs := closesOf bars
  alignedValsChain ((sortedPeriods P.ma_periods).map (fun p => rmean cs p i))
    (rmean cs P.trend_ma i)

/-- Inner touch loop of ma_sensitivity.py lines 108-123: walk the sorted MA
periods in ascending order and stop (break) at the first period whose MA the
bar's low touches.  An undefined (NaN) MA never registers a touch. -/
def firstTouchGo (cs : List ℚ) (lowv pct : ℚ) (i : ℕ) : List ℕ → Option ℕ
  | [] => none
  | p :: rest =>
    match rmean cs p i with
    | some mav => if isTouch lowv mav pct then some p else firstTouchGo cs lowv pct i rest
    | none => firstTouchGo cs lowv pct i rest

/-- First (fastest) MA period registering a touch at bar i. -/
def firstTouch (P : BTParams) (bars : List Bar) (i : ℕ) : Option ℕ :=
  firstTouchGo (closesOf bars) (barAt bars i).Low P.touch_pct i (sortedPeriods P.ma_periods)

/-- A recorded touch event (ma_sensitivity.py lines 116-121). -/
structure TouchEv where
  idx : ℕ
  ma_period : ℕ
  return_pct : ℚ
  win : Bool
deriving DecidableEq, Repr

/-- One iteration of the walk-forward loop (ma_sensitivity.py lines 90-123)
acting on the state (touches so far, last counted touch index). -/
def stepBT (P : BTParams) (bars : List Bar) (st : List TouchEv × ℤ) (i : ℕ) :
    List TouchEv × ℤ :=
  if (i : ℤ) - st.2 < (P.cooldown : ℤ) then st
  else if alignedAtBT P bars i = false then st
  else
    match firstTouch P bars i with
    | none => st
    | some p =>
      match stratFn P.strategy bars i P.hold_days with
      | none => st
      | some r => (st.1 ++ [⟨i, p, r, decide (0 < r)⟩], (i : ℤ))

/-- max(max(ma_periods), trend_ma) (ma_sensitivity.py line 72). -/
def btMinPeriod (P : BTParams) : ℕ := max (P.ma_periods.foldl max 0) P.trend_ma

/-- Start index of the walk: min_period + 10 (ma_sensitivity.py line 87). -/
def btStart (P : BTParams) : ℕ := btMinPeriod P + 10

/-- End index of the walk: len(ohlcv) - hold_days (ma_sensitivity.py line 88). -/
def btEnd (P : BTParams) (bars : List Bar) : ℕ := bars.length - P.hold_days

/-- The full walk-forward replay: the list of recorded touch events, with
last_touch_idx initialised to -cooldown - 1 (ma_sensitivity.py lines 84-125). -/
def walkTouches (P : BTParams) (bars : List Bar) : List TouchEv :=
  ((List.range' (btStart P) (btEnd P bars - btStart P)).foldl (stepBT P bars)
    ([], -(P.cooldown : ℤ) - 1)).1

/-- Whether bar i would be counted when reached off cooldown: trend aligned,
some MA touched, and the strategy yields a value. -/
def qualB (P : BTParams) (bars : List Bar) (i : ℕ) : Bool :=
  alignedAtBT P bars i && (firstTouch P bars i).isSome &&
    (stratFn P.strategy bars i P.hold_days).isSome

/-- The metrics dict returned by the backtest (_compute_metrics /
_empty_result).  Per-MA dict entries are modelled as functions of the
period; distinct periods give distinct dict keys, duplicated configured
periods collapse onto one key exactly as Python dict assignment does. -/
structure Metrics where
  win_rate : ℚ
  avg_return : ℚ
  total_touches : ℕ
  backtest_score : ℚ
  ma_win_rate : ℕ → ℚ
  ma_touches : ℕ → ℕ

/-- _empty_result (ma_sensitivity.py lines 128-138): the canonical
zero-filled outcome. -/
def emptyResult (_ps : List ℕ) : Metrics :=
  ⟨0, 0, 0, 0, fun _ => 0, fun _ => 0⟩

/-- Exact (pre-rounding) win rate of a touch list: wins / total * 100. -/
def wrOf (touches : List TouchEv) : ℚ :=
  ((touches.filter (fun t => t.win)).length : ℚ) / (touches.length : ℚ) * 100

/-- Exact (pre-rounding) average return of a touch list. -/
def arOf (touches : List TouchEv) : ℚ :=
  (touches.map (fun t => t.return_pct)).sum / (touches.length : ℚ)

/-- The composite backtest score before the final round(.., 1)
(ma_sensitivity.py lines 169-177): clamped win-rate component plus clamped
return component, discounted by min(1, total/10). -/
def preScore (touches : List TouchEv) : ℚ :=
  (min 50 (max 0 ((wrOf touches - 40) / 40 * 50)) +
      min 50 (max 0 (arOf touches / 2 * 50))) *
    min 1 ((touches.length : ℚ) / 10)

/-- _compute_metrics (ma_sensitivity.py lines 141-179). -/
def computeMetrics (touches : List TouchEv) (ps : List ℕ) : Metrics :=
  if touches.isEmpty then emptyResult ps
  else
    { win_rate := roundTo 1 (wrOf touches)
      avg_return := roundTo 2 (arOf touches)
      total_touches := touches.length
      backtest_score := roundTo 1 (preScore touches)
      ma_win_rate := fun p =>
        if p ∈ ps then
          let mt := touches.filter (fun t => t.ma_period = p)
          if mt.length = 0 then 0
          else roundTo 1 (((mt.filter (fun t => t.win)).length : ℚ) / (mt.length : ℚ) * 100)
        else 0
      ma_touches := fun p =>
        if p ∈ ps then (touches.filter (fun t => t.ma_period = p)).length else 0 }

/-- backtest_ma_sensitivity (ma_sensitivity.py lines 45-125): warmup gate
followed by the walk-forward replay and aggregation. -/
def backtest_ma_sensitivity (P : BTParams) (bars : List Bar) : Metrics :=
  if bars.length < btMinPeriod P + 50 then emptyResult P.ma_periods
  else computeMetrics (walkTouches P bars) P.ma_periods

/-- A value of the details mapping of a ScanResult: either a display string
or a number. -/
inductive DetailVal
  | str (s : String)
  | num (q : ℚ)
deriving DecidableEq, Repr

/-- The sparse fundamentals record; .get with a default models the
pandas Series lookups fundamentals.get("sector", "N/A") and
fundamentals.get("marketCap", 0). -/
structure Fundamentals where
  sector : Option String
  marketCap : Option ℚ
deriving DecidableEq, Repr

/-- ScanResult (base.py lines 8-18). -/
structure ScanResult where
  ticker : String
  score : ℚ
  signal : String
  details : List (String × DetailVal)
deriving DecidableEq, Repr

/-- ScanResult construction: __post_init__ clamps the score into [0, 100]
(base.py lines 17-18). -/
def mkScanResult (ticker : String) (score : ℚ) (signal : String)
    (details : List (String × DetailVal)) : ScanResult :=
  ⟨ticker, max 0 (min 100 score), signal, details⟩

/-- Pandas-style per-bar alignment of three (possibly NaN) MA values:
(fast > mid) & (mid > slow). -/
def alignedTriple (a b c : Option ℚ) : Bool := optGT a b && optGT b c

/-- series.tail(n): the last n entries (all of them when n exceeds the
length). -/
def tailN (l : List (Option ℚ)) (n : ℕ) : List (Option ℚ) := l.drop (l.length - n)

/-- align_days of ma_pullback.py lines 60-63 and strong_pullback.py lines
108-111: how many of the last w bars have the three MAs strictly
descending. -/
def alignDays (f m s : List (Option ℚ)) (w : ℕ) : ℕ :=
  ((tailN f w).zip ((tailN m w).zip (tailN s w))).countP
    (fun x => alignedTriple x.1 x.2.1 x.2.2)

/-- The persistence gate: the scan proceeds only when align_days reaches the
window itself (ma_pullback.py line 64, strong_pullback.py line 112). -/
def alignGate (f m s : List (Option ℚ)) (w : ℕ) : Bool :=
  decide (w ≤ alignDays f m s w)

/-- The full rolling-mean series close.rolling(p).mean(), one (possibly NaN)
value per input bar. -/
def rollingList (cs : List ℚ) (p : ℕ) : List (Option ℚ) :=
  (List.range cs.length).map (fun i => rmean cs p i)

/-- Configuration of MAPullbackScanner (ma_pullback.py lines 22-27). -/
structure MPParams where
  ma_short : ℕ
  ma_medium : ℕ
  ma_long : ℕ
  pullback_pct : ℚ
  min_trend_days : ℕ
deriving DecidableEq, Repr

/-- Default MAPullbackScanner configuration. -/
def defaultMP : MPParams := ⟨20, 50, 200, 2, 10⟩

/-- MAPullbackScanner.scan (ma_pullback.py lines 36-95).  A NaN in any of
the latest MA values fails the alignment comparison chain exactly as in
pandas, hence returns none. -/
def maPullbackScan (P : MPParams) (ticker : String) (bars : List Bar)
    (fund : Fundamentals) : Option ScanResult :=
  if bars.length < P.ma_long + P.min_trend_days then none
  else
    let cs := closesOf bars
    let n := bars.length
    match rmean cs P.ma_short (n - 1), rmean cs P.ma_medium (n - 1),
        rmean cs P.ma_long (n - 1) with
    | some s, some m, some l =>
      if ¬(m < s ∧ l < m) then none
      else
        let alignmentDays := alignDays (rollingList cs P.ma_short)
          (rollingList cs P.ma_medium) (rollingList cs P.ma_long) P.min_trend_days
        if alignmentDays < P.min_trend_days then none
        else
          let latest := (barAt bars (n - 1)).Close
          let distancePct := |latest - s| / s * 100
          if P.pullback_pct < distancePct then none
          else
            let distanceScore := (1 - distancePct / P.pullback_pct) * 50
            let spreadPct := (s - l) / l * 100
            let spreadScore := min 50 (spreadPct * 5)
            let score := distanceScore + spreadScore
            let signal := if 70 ≤ score then "STRONG_BUY"
              else if 40 ≤ score then "BUY" else "WATCH"
            some (mkScanResult ticker (roundTo 1 score) signal
              [("close", .num (roundTo 2 latest)),
               ("sma_short", .num (roundTo 2 s)),
               ("sma_medium", .num (roundTo 2 m)),
               ("sma_long", .num (roundTo 2 l)),
               ("pullback_%", .num (roundTo 2 distancePct)),
               ("spread_%", .num (roundTo 2 spreadPct)),
               ("align_days", .num (alignmentDays : ℚ)),
               ("sector", .str (fund.sector.getD "N/A")),
               ("mkt_cap_B", .num (roundTo 1 (fund.marketCap.getD 0 / 1000000000)))])
    | _, _, _ => none

/-- Helper of the weekly resampler: split the bar list into maximal runs of
bars sharing a calendar week (date / 7). -/
def weekChunksGo (w : ℕ) (cur : List Bar) : List Bar → List (List Bar)
  | [] => [cur.reverse]
  | b :: rest =>
    if b.date / 7 = w then weekChunksGo w (b :: cur) rest
    else cur.reverse :: weekChunksGo (b.date / 7) [b] rest

/-- Aggregate one week of bars: open first, high max, low min, close last,
volume sum (base.py lines 76-88). -/
def weeklyOf (chunk : List Bar) : Bar :=
  { date := ((chunk.getLast?).map Bar.date).getD 0
    Open := ((chunk.head?).map Bar.Open).getD 0
    High := maxQ (chunk.map Bar.High)
    Low := minQ (chunk.map Bar.Low)
    Close := ((chunk.getLast?).map Bar.Close).getD 0
    Volume := (chunk.map Bar.Volume).sum }

/-- resample_ohlcv(daily, "W") (base.py lines 62-88): weekly buckets with
empty buckets dropped; with ascending dates the members of one week are
consecutive, so grouping consecutive runs is exact. -/
def resampleW : List Bar → List Bar
  | [] => []
  | b :: rest => (weekChunksGo (b.date / 7) [b] rest).map weeklyOf

/-- Configuration of EntryPointScanner (entry_point.py lines 37-51). -/
structure EPParams where
  d_fast : ℕ
  d_mid : ℕ
  d_slow : ℕ
  w_fast : ℕ
  w_mid : ℕ
  lookback : ℕ
  approach_pct : ℚ
  touch_pct : ℚ
  wick_body_mult : ℚ
  upper_wick_max : ℚ
deriving DecidableEq, Repr

/-- Default EntryPointScanner configuration (entry_point.py lines 37-51). -/
def defaultEP : EPParams := ⟨10, 20, 50, 10, 20, 3, 3, 1/2, 2, 3/10⟩

/-- Recency multiplier of the signal search (entry_point.py line 149):
max(0.0, 1.0 - ago * 0.3). -/
def epRecency (ago : ℕ) : ℚ := max 0 (1 - (ago : ℚ) * (3/10))

/-- A candidate signal as accumulated by the search loop: the signal kind,
the MA label, the rounded distances stored in best_details, the bar age, and
the recency-weighted score (entry_point.py lines 159-209). -/
structure Sig where
  signal : String
  ma : String
  low_dist_pct : ℚ
  close_dist_pct : ℚ
  ago : ℕ
  score : ℚ
deriving DecidableEq, Repr

/-- Evaluation of one (bar, MA) pair in the signal search (entry_point.py
lines 159-209): the mid-MA floor check, then HAMMER, TOUCH, APPROACHING in
that order of priority; none when no signal fires.  An undefined (NaN) MA
yields none, as every comparison against NaN is false. -/
def candEval (P : EPParams) (o h l c : ℚ) (maOpt : Option ℚ) (maLabel : String)
    (ago : ℕ) : Option Sig :=
  match maOpt with
  | none => none
  | some mav =>
    let closeDist := (c - mav) / mav * 100
    let lowDist := (l - mav) / mav * 100
    if maLabel = "MA" ++ toString P.d_mid ∧ c < mav then none
    else
      let recency := epRecency ago
      let isHammerB := detectHammer P.wick_body_mult P.upper_wick_max o h l c
      let lowNear := isTouch l mav P.touch_pct
      if isHammerB ∧ lowNear then
        let prox := max 0 (1 - |lowDist| / max P.touch_pct (1/100)) * 20
        some ⟨"HAMMER", maLabel, roundTo 2 |lowDist|, roundTo 2 closeDist, ago,
          (40 + prox) * recency⟩
      else if lowNear then
        let prox := max 0 (1 - |lowDist| / max P.touch_pct (1/100)) * 15
        some ⟨"TOUCH", maLabel, roundTo 2 |lowDist|, roundTo 2 closeDist, ago,
          (25 + prox) * recency⟩
      else if |closeDist| ≤ P.approach_pct then
        let prox := max 0 (1 - |closeDist| / P.approach_pct) * 15
        some ⟨"APPROACHING", maLabel, roundTo 2 |lowDist|, roundTo 2 closeDist, ago,
          (10 + prox) * recency⟩
      else none

/-- The two candidates of one examined bar, fast MA first then mid MA
(entry_point.py line 159), dropping the pairs that produced no signal. -/
def barCands (P : EPParams) (bars : List Bar) (idx : ℕ) : List Sig :=
  let b := barAt bars idx
  let cs := closesOf bars
  let ago := bars.length - 1 - idx
  [candEval P b.Open b.High b.Low b.Close (rmean cs P.d_fast idx)
      ("MA" ++ toString P.d_fast) ago,
   candEval P b.Open b.High b.Low b.Close (rmean cs P.d_mid idx)
      ("MA" ++ toString P.d_mid) ago].filterMap id

/-- The bar indices examined by the search loop, in iteration order:
for i in range(-lookback, 0) gives idx = len + i ascending, i.e. the OLDEST
of the last lookback bars first; negative idx values are skipped
(entry_point.py lines 142-147). -/
def epIndices (P : EPParams) (bars : List Bar) : List ℕ :=
  (List.range P.lookback).filterMap (fun j =>
    let iz : ℤ := (bars.length : ℤ) - (P.lookback : ℤ) + (j : ℤ)
    if iz < 0 then none else some iz.toNat)

/-- All candidate signals in the exact order the source examines them:
oldest examined bar first, and within a bar the fast MA before the mid MA. -/
def epCandidates (P : EPParams) (bars : List Bar) : List Sig :=
  ((epIndices P bars).map (barCands P bars)).flatten

/-- One update of the running best: replace only on a strictly greater
score (entry_point.py lines 174-175, 188-189, 202-203), so the first
candidate attaining the maximum is retained. -/
def epStep (b : Option Sig × ℚ) (c : Sig) : Option Sig × ℚ :=
  if b.2 < c.score then (some c, c.score) else b

/-- The signal search of EntryPointScanner.scan (entry_point.py lines
138-209): fold the candidates in source order starting from
(best_signal = None, best_score = 0). -/
def epSearchBest (P : EPParams) (bars : List Bar) : Option Sig × ℚ :=
  (epCandidates P bars).foldl epStep (none, 0)

/-- Formalisation of the specification's wording of the search order, for
comparison with the code: examine the most recent bar FIRST (most recent
first), fast MA before mid MA, and retain the single highest-scoring
candidate (first encountered on ties). -/
def epSearchSpecRecentFirst (P : EPParams) (bars : List Bar) : Option Sig × ℚ :=
  (((epIndices P bars).reverse.map (barCands P bars)).flatten).foldl epStep (none, 0)

/-- EntryPointScanner.scan (entry_point.py lines 93-290): length gate,
weekly trend filter, daily trend filter, floor check, signal search,
resistance / trend / weekly / green-candle bonuses, clamp and labelling.
Insufficient warmup surfaces as a NaN moving average whose comparison
fails, hence none, matching the pandas behaviour of the source. -/
def entryScan (P : EPParams) (ticker : String) (bars : List Bar)
    (fund : Fundamentals) : Option ScanResult :=
  if bars.length < P.d_slow + 20 then none
  else
    let weekly := resampleW bars
    if weekly.length < P.w_mid + 2 then none
    else
      let wcs := closesOf weekly
      let wlen := weekly.length
      let wLast := (barAt weekly (wlen - 1)).Close
      match rmean wcs P.w_mid (wlen - 1) with
      | none => none
      | some wmm =>
        if ¬(wmm < wLast) then none
        else
          let wMF := rmean wcs P.w_fast (wlen - 1)
          let weeklyFullAlign := optGT (some wLast) wMF && optGT wMF (some wmm)
          let cs := closesOf bars
          let n := bars.length
          match rmean cs P.d_fast (n - 1), rmean cs P.d_mid (n - 1),
              rmean cs P.d_slow (n - 1) with
          | some mf, some mm, some ms =>
            if ¬(mm < mf ∧ ms < mm) then none
            else if (barAt bars (n - 1)).Close < mm then none
            else
              match epSearchBest P bars with
              | (none, _) => none
              | (some bestSig, bestScore) =>
                let highs := bars.map Bar.High
                let ath := maxQ highs
                let latestClose := (barAt bars (n - 1)).Close
                let pctFromAth := (ath - latestClose) / ath * 100
                let resistanceBonus : ℚ :=
                  if pctFromAth ≤ 3 then 20
                  else if pctFromAth ≤ 5 then 15
                  else if pctFromAth ≤ 10 then 8 else 0
                let recentHigh := maxQ (highs.drop (highs.length - 20))
                let pctRecentFromAth := (ath - recentHigh) / ath * 100
                let resistanceBonus2 :=
                  resistanceBonus + (if pctRecentFromAth ≤ 2 then 5 else 0)
                let dSpreadPct := (mf - ms) / ms * 100
                let trendBonus := min 15 (dSpreadPct * 3)
                let wSpreadPct :=
                  match wMF with
                  | some wmf => (wmf - wmm) / wmm * 100
                  | none => 0
                let weeklyBonus :=
                  if weeklyFullAlign then min 15 (wSpreadPct * 2 + 5)
                  else min 5 (max 0 wSpreadPct)
                let latestGreen :=
                  decide ((barAt bars (n - 1)).Open < (barAt bars (n - 1)).Close)
                let total := bestScore + resistanceBonus2 + trendBonus + weeklyBonus +
                  (if latestGreen then 5 else 0)
                let score := min 100 total
                let signal := if 65 ≤ score then "STRONG_BUY"
                  else if 40 ≤ score then "BUY" else "WATCH"
                some (mkScanResult ticker (roundTo 1 score) signal
                  [("close", .num (roundTo 2 latestClose)),
                   ("entry", .str bestSig.signal),
                   ("at", .str bestSig.ma),
                   ("dist_%", .num (roundTo 1 bestSig.close_dist_pct)),
                   ("ago", .num (bestSig.ago : ℚ)),
                   ("ath_%", .num (roundTo 1 pctFromAth)),
                   ("ma_fast", .num (roundTo 2 mf)),
                   ("ma_mid", .num (roundTo 2 mm)),
                   ("wk_align", .str (if weeklyFullAlign then "Y" else "N")),
                   ("sector", .str (fund.sector.getD "N/A")),
                   ("cap_B", .num (roundTo 1 (fund.marketCap.getD 0 / 1000000000)))])
          | _, _, _ => none

/-- Bar with all prices equal (used to build synthetic series). -/
def flatB (d : ℕ) (c : ℚ) : Bar := ⟨d, c, c, c, c, 0⟩

/-- Bar with a dedicated low (used to build synthetic touch bars). -/
def lowB (d : ℕ) (c l : ℚ) : Bar := ⟨d, c, c, l, c, 0⟩

/-- Backtest configuration for the cooldown scenario: one tested MA period
(2), trend MA 3, touch 1 percent, hold 1 day, cooldown 4, bounce strategy. -/
def btPC2 : BTParams := ⟨[2], 3, 1, 1, 4, "bounce"⟩

/-- Synthetic 21-bar series whose only two qualifying touch bars are at
indices 14 and 17, which are cooldown - 1 = 3 apart. -/
def barsC2a : List Bar :=
  [flatB 0 100, flatB 1 100, flatB 2 100, flatB 3 100, flatB 4 100,
   flatB 5 100, flatB 6 100, flatB 7 100, flatB 8 100, flatB 9 100,
   flatB 10 100, flatB 11 100, flatB 12 100, flatB 13 100,
   lowB 14 110 105, flatB 15 90, flatB 16 100, lowB 17 110 105,
   flatB 18 90, flatB 19 100, flatB 20 100]

/-- Synthetic 21-bar series whose only two qualifying touch bars are at
indices 14 and 18, which are exactly cooldown = 4 apart. -/
def barsC2b : List Bar :=
  [flatB 0 100, flatB 1 100, flatB 2 100, flatB 3 100, flatB 4 100,
   flatB 5 100, flatB 6 100, flatB 7 100, flatB 8 100, flatB 9 100,
   flatB 10 100, flatB 11 100, flatB 12 100, flatB 13 100,
   lowB 14 110 105, flatB 15 90, flatB 16 90, flatB 17 90,
   lowB 18 110 100, flatB 19 70, flatB 20 100]

/-- Ten touch events with 100 percent win rate and average return 0.0044. -/
def touchesC3ten : List TouchEv := List.replicate 10 ⟨0, 10, 11/2500, true⟩

/-- Five touch events with the same win rate and average return. -/
def touchesC3five : List TouchEv := List.replicate 5 ⟨0, 10, 11/2500, true⟩

/-- One-bar series for the hold_days = 0 edge of the strategies. -/
def barsC5ce : List Bar := [flatB 0 1]

/-- Two-bar series on which both strategies yield a value. -/
def barsC5w : List Bar := [flatB 0 100, ⟨1, 100, 110, 100, 105, 0⟩]

/-- Entry-point configuration for the search-order scenario: fast MA 2,
mid MA 4, lookback 2, touch 1 percent. -/
def epPC6 : EPParams := ⟨2, 4, 50, 10, 20, 2, 3, 1, 2, 3/10⟩

/-- Eight-bar series producing two TOUCH candidates with exactly equal
recency-weighted scores (28): one on the bar one day back (exact MA touch,
recency 0.7) and one on the most recent bar (low 0.8 percent above the MA,
recency 1.0). -/
def barsC6 : List Bar :=
  [flatB 0 90, flatB 1 90, flatB 2 90, flatB 3 90, flatB 4 94, flatB 5 98,
   ⟨6, 101, 102, 99, 100, 0⟩,
   ⟨7, 209/2, 211/2, 12852/125, 104, 0⟩]

/-- Three MA series (length 4) whose alignment holds on exactly the last
three bars and is violated on the fourth-from-last. -/
def fC8 : List (Option ℚ) := [some 1, some 5, some 5, some 5]

/-- Middle MA series of the alignment scenario. -/
def mC8 : List (Option ℚ) := [some 2, some 3, some 3, some 3]

/-- Slow MA series of the alignment scenario. -/
def sC8 : List (Option ℚ) := [some 3, some 1, some 1, some 1]

/-- Empty fundamentals record. -/
def fund0 : Fundamentals := ⟨none, none⟩

/-- Claim C1: for every bar and every positive moving-average level, the
touch predicate holds iff |low - level|/level (in percent) is at most
touch_pct or low ≤ level; a low at or below the level is always a touch,
and a low strictly more than touch_pct percent above the level never is. -/
theorem claim_C1_touch_asymmetry (low level pct : ℚ) (hlev : 0 < level) :
    (isTouch low level pct = true ↔
      (|low - level| / level * 100 ≤ pct ∨ low ≤ level))
    ∧ (low ≤ level → isTouch low level pct = true)
    ∧ (level < low → pct < (low - level) / level * 100 →
        isTouch low level pct = false) := by
  have habs : |(low - level) / level * 100| = |low - level| / level * 100 := by
    rw [abs_mul, abs_div, abs_of_pos hlev]
    norm_num
  have hneg : ((low - level) / level * 100 ≤ 0 ↔ low ≤ level) := by
    rw [div_mul_eq_mul_div, div_nonpos_iff]
    constructor
    · rintro (⟨h1, h2⟩ | ⟨h1, h2⟩) <;> nlinarith
    · intro hle
      exact Or.inr ⟨by nlinarith, le_of_lt hlev⟩
  have hiff : isTouch low level pct = true ↔
      (|low - level| / level * 100 ≤ pct ∨ low ≤ level) := by
    simp only [isTouch, Bool.or_eq_true, decide_eq_true_eq, habs, hneg]
  refine ⟨hiff, fun hle => hiff.mpr (Or.inr hle), fun h1 h2 => ?_⟩
  cases hb : isTouch low level pct with
  | false => rfl
  | true =>
    exfalso
    rcases hiff.mp hb with hA | hB
    · rw [abs_of_pos (sub_pos.mpr h1)] at hA
      exact absurd hA (not_le.mpr h2)
    · exact absurd hB (not_le.mpr h1)

/-- Witness for C1: a bar whose low sits exactly on the level is a touch
even with a tolerance of zero. -/
theorem claim_C1_witness : isTouch 100 100 0 = true :=
  (claim_C1_touch_asymmetry 100 100 0 (by norm_num)).2.1 (le_refl 100)

/-- Counterexample to claim C7 as stated: in the doji regime the source
requires the lower shadow to be STRICTLY greater than 60 percent of the
range (entry_point.py line 86), so the bar (open 60, high 100, low 0,
close 62) with lower shadow exactly 60 percent of the range, body below
5 percent of the range and upper shadow within upper_wick_max = 1/2 is not
a hammer even though the claim's conditions (lower shadow ≥ 60 percent,
upper shadow < upper_wick_max of range) hold. -/
theorem claim_C7_counterexample :
    detectHammer 2 (1/2) 60 100 0 62 = false
    ∧ |(62 : ℚ) - 60| < ((100 : ℚ) - 0) * (5/100)
    ∧ ((100 : ℚ) - 0) * (6/10) ≤ min (62 : ℚ) 60 - 0
    ∧ (100 : ℚ) - max (62 : ℚ) 60 < ((100 : ℚ) - 0) * (1/2) := by
  refine ⟨by with_unfolding_all decide, by norm_num, by norm_num, by norm_num⟩

/-- Claim C7 (amended: in the doji regime the lower-shadow bound is strict,
lower shadow > 60 percent of the range): a zero-range bar is never a
hammer; a bar with body below 5 percent of the range is a hammer iff its
lower shadow strictly exceeds 60 percent of the range and its upper shadow
is below upper_wick_max of the range; any other bar is a hammer iff its
lower shadow is at least wick_body_ratio times the body and its upper
shadow is below upper_wick_max of the range. -/
theorem claim_C7_hammer_classifier (ratio wmax o h l c : ℚ) :
    (h = l → detectHammer ratio wmax o h l c = false)
    ∧ (|c - o| < (h - l) * (5/100) →
        (detectHammer ratio wmax o h l c = true ↔
          ((h - l) * (6/10) < min c o - l ∧ h - max c o < (h - l) * wmax)))
    ∧ (l < h → ¬(|c - o| < (h - l) * (5/100)) →
        (detectHammer ratio wmax o h l c = true ↔
          (|c - o| * ratio ≤ min c o - l ∧ h - max c o < (h - l) * wmax))) := by
  refine ⟨?_, ?_, ?_⟩
  · intro he
    subst he
    simp [detectHammer]
  · intro hb
    have h0 : ¬(h - l ≤ 0) := by nlinarith [abs_nonneg (c - o)]
    simp only [detectHammer, if_neg h0, if_pos hb, Bool.and_eq_true,
      decide_eq_true_eq]
  · intro hl hb
    have h0 : ¬(h - l ≤ 0) := by nlinarith
    simp only [detectHammer, if_neg h0, if_neg hb, Bool.and_eq_true,
      decide_eq_true_eq]

/-- Witness for C7: a doji bar whose lower shadow is 61 percent of the range
and whose upper shadow is below the configured half-range cap is a hammer. -/
theorem claim_C7_witness : detectHammer 2 (1/2) 61 100 0 62 = true :=
  ((claim_C7_hammer_classifier 2 (1/2) 61 100 0 62).2.1 (by norm_num)).mpr
    (by constructor <;> norm_num)

/-- Claim C9: every ScanResult is constructed through the __post_init__
clamp, so its score lies in [0, 100] and equals the raw score clamped into
that interval (negative raw totals included). -/
theorem claim_C9_score_clamp (t : String) (raw : ℚ) (sig : String)
    (d : List (String × DetailVal)) :
    0 ≤ (mkScanResult t raw sig d).score
    ∧ (mkScanResult t raw sig d).score ≤ 100
    ∧ (mkScanResult t raw sig d).score = max 0 (min 100 raw) := by
  refine ⟨le_max_left _ _, ?_, rfl⟩
  exact max_le (by norm_num) (min_le_left _ _)

/-- Counterexample to claim C3 as stated: two touch lists with identical
win_rate (100) and avg_return (0.0044), of 10 and 5 events; the 10-event
score rounds to 50.1 while the 5-event score rounds to 25.1, which is not
half of 50.1.  The rounding to one decimal applied to backtest_score
breaks the exact halving claimed. -/
theorem claim_C3_counterexample :
    wrOf touchesC3five = wrOf touchesC3ten
    ∧ arOf touchesC3five = arOf touchesC3ten
    ∧ (computeMetrics touchesC3five [10, 20]).win_rate
        = (computeMetrics touchesC3ten [10, 20]).win_rate
    ∧ (computeMetrics touchesC3five [10, 20]).avg_return
        = (computeMetrics touchesC3ten [10, 20]).avg_return
    ∧ (computeMetrics touchesC3five [10, 20]).total_touches = 5
    ∧ (computeMetrics touchesC3ten [10, 20]).total_touches = 10
    ∧ ¬((computeMetrics touchesC3five [10, 20]).backtest_score
        = (computeMetrics touchesC3ten [10, 20]).backtest_score / 2) := by
  have ha5 : arOf touchesC3five = 11/2500 := by
    simp [arOf, touchesC3five, List.sum_replicate]
    norm_num
  have ha10 : arOf touchesC3ten = 11/2500 := by
    simp [arOf, touchesC3ten, List.sum_replicate]
    norm_num
  refine ⟨?_, ha5.trans ha10.symm, ?_, ?_, ?_, ?_, ?_⟩ <;> with_unfolding_all decide

/-- Claim C3 (amended: the composite-score formula is as claimed, and the
five-event aggregation yields exactly half the ten-event score BEFORE the
final rounding to one decimal; the rounded backtest_score field can differ
from half the rounded ten-event field). -/
theorem claim_C3_backtest_score (touches : List TouchEv) (ps : List ℕ)
    (h : touches ≠ []) :
    (computeMetrics touches ps).backtest_score
      = roundTo 1 ((min 50 (max 0 ((wrOf touches - 40) / 40 * 50)) +
          min 50 (max 0 (arOf touches / 2 * 50))) *
          min 1 ((touches.length : ℚ) / 10))
    ∧ ∀ t5 t10 : List TouchEv, t5.length = 5 → t10.length = 10 →
        wrOf t5 = wrOf t10 → arOf t5 = arOf t10 →
        preScore t5 = preScore t10 / 2 := by
  constructor
  · have hne : ¬ touches.isEmpty := by
      cases touches with
      | nil => exact absurd rfl h
      | cons a t => simp
    simp [computeMetrics, hne, preScore]
  · intro t5 t10 h5 h10 hwr har
    simp only [preScore, h5, h10, hwr, har]
    norm_num
    ring

/-- Witness for C3: the amended statement evaluated on the five-event and
ten-event lists of the counterexample. -/
theorem claim_C3_witness :
    (computeMetrics touchesC3five [10, 20]).backtest_score
      = roundTo 1 ((min 50 (max 0 ((wrOf touchesC3five - 40) / 40 * 50)) +
          min 50 (max 0 (arOf touchesC3five / 2 * 50))) *
          min 1 ((touchesC3five.length : ℚ) / 10))
    ∧ preScore touchesC3five = preScore touchesC3ten / 2 :=
  by
  have ha5 : arOf touchesC3five = 11/2500 := by
    simp [arOf, touchesC3five, List.sum_replicate]
    norm_num
  have ha10 : arOf touchesC3ten = 11/2500 := by
    simp [arOf, touchesC3ten, List.sum_replicate]
    norm_num
  exact ⟨(claim_C3_backtest_score touchesC3five [10, 20] (by with_unfolding_all decide)).1,
    (claim_C3_backtest_score touchesC3five [10, 20] (by with_unfolding_all decide)).2
      touchesC3five touchesC3ten (by with_unfolding_all decide)
      (by with_unfolding_all decide) (by with_unfolding_all decide)
      (ha5.trans ha10.symm)⟩

/-- Claim C4: a series shorter than the policy minimum makes the entry-point
and MA-pullback scans return none and the backtest return the zero-filled
canonical result, in all cases as a total function (no exception). -/
theorem claim_C4_insufficient_data (P : EPParams) (Q : MPParams) (B : BTParams)
    (t : String) (bars : List Bar) (f : Fundamentals) :
    (bars.length < P.d_slow + 20 → entryScan P t bars f = none)
    ∧ (bars.length < Q.ma_long + Q.min_trend_days → maPullbackScan Q t bars f = none)
    ∧ (bars.length < btMinPeriod B + 50 →
        (backtest_ma_sensitivity B bars).win_rate = 0
        ∧ (backtest_ma_sensitivity B bars).avg_return = 0
        ∧ (backtest_ma_sensitivity B bars).total_touches = 0
        ∧ (backtest_ma_sensitivity B bars).backtest_score = 0
        ∧ ∀ p ∈ B.ma_periods,
            (backtest_ma_sensitivity B bars).ma_win_rate p = 0
            ∧ (backtest_ma_sensitivity B bars).ma_touches p = 0) := by
  refine ⟨fun h => ?_, fun h => ?_, fun h => ?_⟩
  · simp [entryScan, h]
  · simp [maPullbackScan, h]
  · simp [backtest_ma_sensitivity, h, emptyResult]

/-- Witness for C4: the empty series is below every default minimum. -/
theorem claim_C4_witness :
    entryScan defaultEP "T" [] fund0 = none
    ∧ maPullbackScan defaultMP "T" [] fund0 = none
    ∧ (backtest_ma_sensitivity btPC2 []).total_touches = 0
    ∧ (backtest_ma_sensitivity btPC2 []).backtest_score = 0 := by
  refine ⟨?_, ?_, ?_, ?_⟩
  · exact (claim_C4_insufficient_data defaultEP defaultMP btPC2 "T" [] fund0).1
      (by with_unfolding_all decide)
  · exact (claim_C4_insufficient_data defaultEP defaultMP btPC2 "T" [] fund0).2.1
      (by with_unfolding_all decide)
  · exact ((claim_C4_insufficient_data defaultEP defaultMP btPC2 "T" [] fund0).2.2
      (by with_unfolding_all decide)).2.2.1
  · exact ((claim_C4_insufficient_data defaultEP defaultMP btPC2 "T" [] fund0).2.2
      (by with_unfolding_all decide)).2.2.2.1

lemma foldl_max_init_le (l : List ℚ) (a : ℚ) : a ≤ l.foldl max a := by
  induction l generalizing a with
  | nil => exact le_refl a
  | cons b t ih => exact le_trans (le_max_left a b) (ih (max a b))

lemma foldl_max_mem_le (l : List ℚ) (a x : ℚ) (hx : x ∈ l) : x ≤ l.foldl max a := by
  induction l generalizing a with
  | nil => cases hx
  | cons b t ih =>
    rcases List.mem_cons.mp hx with h | h
    · subst h
      exact le_trans (le_max_right a x) (foldl_max_init_le t (max a x))
    · exact ih (max a b) h

/-- Counterexample to claim C5 as stated: with hold_days = 0 and a touch
index inside the series, i + hold_days < len holds and yet the max_return
strategy yields no value (pandas: the maximum of the empty forward window
is NaN), so the claimed equivalence of both strategies returning no value
exactly when i + hold_days ≥ len fails at hold_days = 0. -/
theorem claim_C5_counterexample :
    maxReturn barsC5ce 0 0 = none ∧ 0 + 0 < barsC5ce.length := by
  exact ⟨by with_unfolding_all decide, by with_unfolding_all decide⟩

/-- Claim C5 (amended: for hold_days ≥ 1; at hold_days = 0 the max_return
window is empty and pandas produces NaN).  Bars satisfy 0 ≤ close ≤ high
(close ≥ 0 is the PriceBar invariant of the data model, high ≥ close is the
claim's hypothesis).  Both strategies yield a value exactly when
i + hold_days < len, and the max_return value dominates the bounce value. -/
theorem claim_C5_strategy_dominance (bars : List Bar) (i hold : ℕ)
    (hb : ∀ b ∈ bars, 0 ≤ b.Close ∧ b.Close ≤ b.High) (hh : 1 ≤ hold) :
    ((bounceReturn bars i hold).isSome ↔ i + hold < bars.length)
    ∧ ((maxReturn bars i hold).isSome ↔ i + hold < bars.length)
    ∧ (∀ r1 r2, bounceReturn bars i hold = some r1 →
        maxReturn bars i hold = some r2 → r1 ≤ r2) := by
  by_cases hc : bars.length ≤ i + hold
  · refine ⟨?_, ?_, ?_⟩
    · simp only [bounceReturn, if_pos hc, Option.isSome_none]
      constructor
      · intro h
        cases h
      · intro h
        omega
    · simp only [maxReturn, if_pos hc, Option.isSome_none]
      constructor
      · intro h
        cases h
      · intro h
        omega
    · intro r1 r2 h1 h2
      rw [bounceReturn, if_pos hc] at h1
      cases h1
  · have hlt : i + hold < bars.length := by omega
    have hwlen : (((bars.drop (i + 1)).take hold).map Bar.High).length
        = min hold (bars.length - (i + 1)) := by
      simp
    have hwpos : 0 < (((bars.drop (i + 1)).take hold).map Bar.High).length := by
      rw [hwlen]
      omega
    obtain ⟨y, ys, hys⟩ := List.exists_cons_of_ne_nil (List.ne_nil_of_length_pos hwpos)
    have hjj : hold - 1 < (((bars.drop (i + 1)).take hold).map Bar.High).length := by
      rw [hwlen]
      omega
    have hidx : i + 1 + (hold - 1) = i + hold := by omega
    have hval : (((bars.drop (i + 1)).take hold).map Bar.High).get ⟨hold - 1, hjj⟩
        = (barAt bars (i + hold)).High := by
      rw [List.get_eq_getElem]
      simp only [List.getElem_map, List.getElem_take, List.getElem_drop, barAt]
      rw [List.getD_eq_getElem _ _ (by omega)]
      congr 1
      simp only [hidx]
    have hmem : (barAt bars (i + hold)).High
        ∈ ((bars.drop (i + 1)).take hold).map Bar.High := by
      rw [← hval]
      exact List.get_mem _ _ hjj
    rw [hys] at hmem
    have hexitmem : barAt bars (i + hold) ∈ bars := by
      rw [barAt, List.getD_eq_getElem _ _ hlt]
      exact List.getElem_mem hlt
    have hentrymem : barAt bars i ∈ bars := by
      rw [barAt, List.getD_eq_getElem _ _ (by omega)]
      exact List.getElem_mem (by omega)
    have hmax : (barAt bars (i + hold)).High ≤ ys.foldl max y := by
      rcases List.mem_cons.mp hmem with h | h
      · rw [h]
        exact foldl_max_init_le ys y
      · exact foldl_max_mem_le ys y _ h
    have hcc : (barAt bars (i + hold)).Close ≤ ys.foldl max y :=
      le_trans (hb _ hexitmem).2 hmax
    have he0 : 0 ≤ (barAt bars i).Close := (hb _ hentrymem).1
    refine ⟨?_, ?_, ?_⟩
    · simp only [bounceReturn, if_neg hc, Option.isSome_some]
      simp only [true_iff]
      omega
    · rw [maxReturn, if_neg hc, hys]
      simp only [Option.isSome_some, true_iff]
      omega
    · intro r1 r2 h1 h2
      rw [bounceReturn, if_neg hc] at h1
      rw [maxReturn, if_neg hc, hys] at h2
      have e1 : r1 = ((barAt bars (i + hold)).Close - (barAt bars i).Close)
          / (barAt bars i).Close * 100 := by
        cases h1
        rfl
      have e2 : r2 = (ys.foldl max y - (barAt bars i).Close)
          / (barAt bars i).Close * 100 := by
        cases h2
        rfl
      rw [e1, e2]
      rcases eq_or_lt_of_le he0 with h0 | h0
      · rw [← h0, div_zero, div_zero]
      · have hsub : (barAt bars (i + hold)).Close - (barAt bars i).Close
            ≤ ys.foldl max y - (barAt bars i).Close := by linarith
        have hdiv := (div_le_div_iff_of_pos_right h0).mpr hsub
        exact mul_le_mul_of_nonneg_right hdiv (by norm_num)

/-- Witness for C5: on a two-bar uptrend the bounce return is 5 percent, the
max_return is 10 percent, and dominance holds. -/
theorem claim_C5_witness :
    bounceReturn barsC5w 0 1 = some 5 ∧ maxReturn barsC5w 0 1 = some 10
    ∧ (5 : ℚ) ≤ 10 := by
  refine ⟨by with_unfolding_all decide, by with_unfolding_all decide, ?_⟩
  exact (claim_C5_strategy_dominance barsC5w 0 1 (by with_unfolding_all decide)
    (by decide)).2.2 5 10 (by with_unfolding_all decide) (by with_unfolding_all decide)

lemma alignGate_iff (f m s : List (Option ℚ)) (w : ℕ)
    (hm : m.length = f.length) (hs : s.length = f.length) (hw : w ≤ f.length) :
    (alignGate f m s w = true ↔
      ∀ j, f.length - w ≤ j → j < f.length →
        alignedTriple (f.getD j none) (m.getD j none) (s.getD j none) = true) := by
  have hlf : (tailN f w).length = w := by
    simp only [tailN, List.length_drop]
    omega
  have hlm : (tailN m w).length = w := by
    simp only [tailN, List.length_drop, hm]
    omega
  have hls : (tailN s w).length = w := by
    simp only [tailN, List.length_drop, hs]
    omega
  have hlen : ((tailN f w).zip ((tailN m w).zip (tailN s w))).length = w := by
    simp [hlf, hlm, hls]
  have hget : ∀ jj, (hjj : jj < ((tailN f w).zip ((tailN m w).zip (tailN s w))).length) →
      ((tailN f w).zip ((tailN m w).zip (tailN s w)))[jj]
        = (f.getD (f.length - w + jj) none,
           (m.getD (f.length - w + jj) none, s.getD (f.length - w + jj) none)) := by
    intro jj hjj
    have hjw : jj < w := by omega
    rw [List.getElem_zip, List.getElem_zip]
    simp only [tailN, List.getElem_drop]
    rw [List.getD_eq_getElem f none (by omega), List.getD_eq_getElem m none (by omega),
      List.getD_eq_getElem s none (by omega)]
    simp only [hm, hs]
  have h0 : alignGate f m s w = true ↔
      ∀ x ∈ (tailN f w).zip ((tailN m w).zip (tailN s w)),
        alignedTriple x.1 x.2.1 x.2.2 = true := by
    unfold alignGate alignDays
    rw [decide_eq_true_eq]
    constructor
    · intro h
      have h1 : List.countP (fun x => alignedTriple x.1 x.2.1 x.2.2)
          ((tailN f w).zip ((tailN m w).zip (tailN s w)))
          ≤ ((tailN f w).zip ((tailN m w).zip (tailN s w))).length :=
        List.countP_le_length _
      exact List.countP_eq_length.mp (by omega)
    · intro hall
      have := List.countP_eq_length.mpr hall
      omega
  rw [h0]
  constructor
  · intro hall j hj1 hj2
    have hjj : j - (f.length - w) < ((tailN f w).zip ((tailN m w).zip (tailN s w))).length := by
      omega
    have hx := hall _ (List.getElem_mem hjj)
    rw [hget _ hjj] at hx
    have hj : f.length - w + (j - (f.length - w)) = j := by omega
    rw [hj] at hx
    exact hx
  · intro hidx x hx
    obtain ⟨jj, hjj, hxe⟩ := List.mem_iff_getElem.mp hx
    rw [hget _ hjj] at hxe
    subst hxe
    exact hidx (f.length - w + jj) (by omega) (by omega)

/-- Claim C8: the persistence gate of the pullback scanners passes exactly
when strict MA alignment holds on every one of the most recent window bars;
for a series aligned on exactly the k most recent bars and violated k+1
back, the gate passes with window k and fails with window k+1. -/
theorem claim_C8_alignment_gate (f m s : List (Option ℚ)) (n w k : ℕ)
    (hf : f.length = n) (hm : m.length = n) (hs : s.length = n) :
    (w ≤ n →
      (alignGate f m s w = true ↔
        ∀ j, n - w ≤ j → j < n →
          alignedTriple (f.getD j none) (m.getD j none) (s.getD j none) = true))
    ∧ (k + 1 ≤ n →
        (∀ j, n - k ≤ j → j < n →
          alignedTriple (f.getD j none) (m.getD j none) (s.getD j none) = true) →
        alignedTriple (f.getD (n - k - 1) none) (m.getD (n - k - 1) none)
          (s.getD (n - k - 1) none) = false →
        alignGate f m s k = true ∧ alignGate f m s (k + 1) = false) := by
  subst hf
  refine ⟨fun hw => alignGate_iff f m s w hm hs hw, fun hk h1 h2 => ⟨?_, ?_⟩⟩
  · exact (alignGate_iff f m s k hm hs (by omega)).mpr (fun j hj1 hj2 => h1 j hj1 hj2)
  · cases hg : alignGate f m s (k + 1) with
    | false => rfl
    | true =>
      exfalso
      have hx := (alignGate_iff f m s (k + 1) hm hs hk).mp hg (f.length - k - 1)
        (by omega) (by omega)
      rw [h2] at hx
      cases hx

/-- Witness for C8: three MA series of length 4 aligned on exactly the last
3 bars; the gate passes with window 3 and fails with window 4. -/
theorem claim_C8_witness :
    alignGate fC8 mC8 sC8 3 = true ∧ alignGate fC8 mC8 sC8 4 = false :=
  (claim_C8_alignment_gate fC8 mC8 sC8 4 4 3 (by decide) (by decide) (by decide)).2
    (by decide) (by with_unfolding_all decide) (by with_unfolding_all decide)

lemma stepBT_skip (P : BTParams) (bars : List Bar) (st : List TouchEv × ℤ) (i : ℕ)
    (h : (i : ℤ) - st.2 < (P.cooldown : ℤ)) : stepBT P bars st i = st := by
  simp [stepBT, h]

lemma stepBT_not_qual (P : BTParams) (bars : List Bar) (st : List TouchEv × ℤ) (i : ℕ)
    (h : qualB P bars i = false) : stepBT P bars st i = st := by
  by_cases hc : (i : ℤ) - st.2 < (P.cooldown : ℤ)
  · exact stepBT_skip P bars st i hc
  · cases ha : alignedAtBT P bars i with
    | false => simp [stepBT, hc, ha]
    | true =>
      cases hft : firstTouch P bars i with
      | none => simp [stepBT, hc, ha, hft]
      | some p =>
        cases hst : stratFn P.strategy bars i P.hold_days with
        | none => simp [stepBT, hc, ha, hft, hst]
        | some r =>
          exfalso
          simp only [qualB, ha, hft, hst, Option.isSome_some, Bool.and_self] at h
          cases h

lemma stepBT_qual (P : BTParams) (bars : List Bar) (st : List TouchEv × ℤ) (i : ℕ)
    (hc : ¬ ((i : ℤ) - st.2 < (P.cooldown : ℤ))) (h : qualB P bars i = true) :
    (stepBT P bars st i).2 = (i : ℤ)
    ∧ (stepBT P bars st i).1.map TouchEv.idx = st.1.map TouchEv.idx ++ [i] := by
  simp only [qualB, Bool.and_eq_true, Option.isSome_iff_exists] at h
  obtain ⟨⟨ha, p, hft⟩, r, hst⟩ := h
  simp [stepBT, hc, ha, hft, hst]

lemma stepBT_last_update (P : BTParams) (bars : List Bar) (st : List TouchEv × ℤ)
    (i : ℕ) : (stepBT P bars st i).1 = st.1 → stepBT P bars st i = st := by
  by_cases hc : (i : ℤ) - st.2 < (P.cooldown : ℤ)
  · intro _
    exact stepBT_skip P bars st i hc
  · cases ha : alignedAtBT P bars i with
    | false =>
      intro _
      simp [stepBT, hc, ha]
    | true =>
      cases hft : firstTouch P bars i with
      | none =>
        intro _
        simp [stepBT, hc, ha, hft]
      | some p =>
        cases hst : stratFn P.strategy bars i P.hold_days with
        | none =>
          intro _
          simp [stepBT, hc, ha, hft, hst]
        | some r =>
          intro hcontra
          simp [stepBT, hc, ha, hft, hst] at hcontra

lemma stepBT_ret_none (P : BTParams) (bars : List Bar) (st : List TouchEv × ℤ) (i : ℕ)
    (hst : stratFn P.strategy bars i P.hold_days = none) : stepBT P bars st i = st := by
  by_cases hc : (i : ℤ) - st.2 < (P.cooldown : ℤ)
  · exact stepBT_skip P bars st i hc
  · cases ha : alignedAtBT P bars i with
    | false => simp [stepBT, hc, ha]
    | true =>
      cases hft : firstTouch P bars i with
      | none => simp [stepBT, hc, ha, hft]
      | some p => simp [stepBT, hc, ha, hft, hst]

lemma foldl_stepBT_congr (P : BTParams) (bars : List Bar) (l : List ℕ)
    (st : List TouchEv × ℤ) (h : ∀ i ∈ l, qualB P bars i = false) :
    l.foldl (stepBT P bars) st = st := by
  induction l generalizing st with
  | nil => rfl
  | cons a t ih =>
    rw [List.foldl_cons, stepBT_not_qual P bars st a (h a (List.mem_cons_self a t))]
    exact ih st (fun i hi => h i (List.mem_cons_of_mem a hi))

/-- Claim C2: within the walk-forward backtest, if exactly the bars i1 < i2
qualify (trend aligned, an MA touched, and the strategy yields a value),
then with the bars cooldown - 1 apart only the first event is recorded,
with them exactly cooldown apart both are recorded; moreover the cooldown
reference index is updated only when an event is actually appended, and a
touch whose return measurement yields no value leaves the state (and hence
the cooldown reference) unchanged. -/
theorem claim_C2_cooldown_counting (P : BTParams) (bars : List Bar) (i1 i2 : ℕ)
    (h1 : btStart P ≤ i1) (h12 : i1 < i2) (h2 : i2 < btEnd P bars)
    (hq : ∀ i, i < btEnd P bars → btStart P ≤ i →
      (qualB P bars i = true ↔ (i = i1 ∨ i = i2))) :
    (i2 - i1 = P.cooldown - 1 ∧ 1 ≤ P.cooldown →
      (walkTouches P bars).map TouchEv.idx = [i1])
    ∧ (i2 - i1 = P.cooldown → (walkTouches P bars).map TouchEv.idx = [i1, i2])
    ∧ (∀ st i, ((stepBT P bars st i).1 = st.1 → stepBT P bars st i = st)
        ∧ (stratFn P.strategy bars i P.hold_days = none →
            stepBT P bars st i = st)) := by
  have hqf : ∀ i, btStart P ≤ i → i < btEnd P bars → i ≠ i1 → i ≠ i2 →
      qualB P bars i = false := by
    intro i hs he hn1 hn2
    cases hqi : qualB P bars i with
    | false => rfl
    | true =>
      rcases (hq i he hs).mp hqi with h | h
      · exact absurd h hn1
      · exact absurd h hn2
  have hq1 : qualB P bars i1 = true := (hq i1 (by omega) h1).mpr (Or.inl rfl)
  have hq2 : qualB P bars i2 = true := (hq i2 h2 (by omega)).mpr (Or.inr rfl)
  have hsplit : List.range' (btStart P) (btEnd P bars - btStart P)
      = List.range' (btStart P) (i1 - btStart P) ++ i1 ::
        (List.range' (i1 + 1) (i2 - i1 - 1) ++ i2 ::
          List.range' (i2 + 1) (btEnd P bars - i2 - 1)) := by
    have e1 : List.range' (btStart P) (i1 - btStart P)
        ++ List.range' i1 (btEnd P bars - i1)
        = List.range' (btStart P) (btEnd P bars - btStart P) := by
      have h := List.range'_append_1 (btStart P) (i1 - btStart P) (btEnd P bars - i1)
      rw [show btStart P + (i1 - btStart P) = i1 by omega] at h
      rw [show btEnd P bars - i1 + (i1 - btStart P) = btEnd P bars - btStart P
        by omega] at h
      exact h
    have e2 : List.range' i1 (btEnd P bars - i1)
        = i1 :: List.range' (i1 + 1) (btEnd P bars - i1 - 1) := by
      rw [show btEnd P bars - i1 = btEnd P bars - i1 - 1 + 1 by omega,
        List.range'_succ]
      first
      | rfl
      | (congr 1; omega)
    have e3 : List.range' (i1 + 1) (btEnd P bars - i1 - 1)
        = List.range' (i1 + 1) (i2 - i1 - 1)
          ++ List.range' i2 (btEnd P bars - i2) := by
      have h := List.range'_append_1 (i1 + 1) (i2 - i1 - 1) (btEnd P bars - i2)
      rw [show i1 + 1 + (i2 - i1 - 1) = i2 by omega] at h
      rw [show btEnd P bars - i2 + (i2 - i1 - 1) = btEnd P bars - i1 - 1
        by omega] at h
      exact h.symm
    have e4 : List.range' i2 (btEnd P bars - i2)
        = i2 :: List.range' (i2 + 1) (btEnd P bars - i2 - 1) := by
      rw [show btEnd P bars - i2 = btEnd P bars - i2 - 1 + 1 by omega,
        List.range'_succ]
      first
      | rfl
      | (congr 1; omega)
    rw [← e1, e2, e3, e4]
  have hA : (List.range' (btStart P) (i1 - btStart P)).foldl (stepBT P bars)
      (([], -(P.cooldown : ℤ) - 1) : List TouchEv × ℤ)
      = (([], -(P.cooldown : ℤ) - 1) : List TouchEv × ℤ) := by
    refine foldl_stepBT_congr P bars _ _ (fun i hi => ?_)
    rw [List.mem_range'_1] at hi
    exact hqf i (by omega) (by omega) (by omega) (by omega)
  have hc1 : ¬ ((i1 : ℤ) - (([], -(P.cooldown : ℤ) - 1) :
      List TouchEv × ℤ).2 < (P.cooldown : ℤ)) := by
    simp only []
    omega
  obtain ⟨hs1b, hs1a⟩ := stepBT_qual P bars ([], -(P.cooldown : ℤ) - 1) i1 hc1 hq1
  have hB : ∀ st : List TouchEv × ℤ,
      (List.range' (i1 + 1) (i2 - i1 - 1)).foldl (stepBT P bars) st = st := by
    intro st
    refine foldl_stepBT_congr P bars _ _ (fun i hi => ?_)
    rw [List.mem_range'_1] at hi
    exact hqf i (by omega) (by omega) (by omega) (by omega)
  have hC : ∀ st : List TouchEv × ℤ,
      (List.range' (i2 + 1) (btEnd P bars - i2 - 1)).foldl (stepBT P bars) st = st := by
    intro st
    refine foldl_stepBT_congr P bars _ _ (fun i hi => ?_)
    rw [List.mem_range'_1] at hi
    exact hqf i (by omega) (by omega) (by omega) (by omega)
  have hwalk : walkTouches P bars
      = ((List.range' (i2 + 1) (btEnd P bars - i2 - 1)).foldl (stepBT P bars)
          (stepBT P bars
            (stepBT P bars ([], -(P.cooldown : ℤ) - 1) i1) i2)).1 := by
    rw [walkTouches, hsplit, List.foldl_append, hA, List.foldl_cons,
      List.foldl_append, hB, List.foldl_cons]
  refine ⟨fun hgap => ?_, fun hgap => ?_, fun st i =>
    ⟨stepBT_last_update P bars st i, stepBT_ret_none P bars st i⟩⟩
  · have hskip : (i2 : ℤ) - (stepBT P bars ([], -(P.cooldown : ℤ) - 1) i1).2
        < (P.cooldown : ℤ) := by
      rw [hs1b]
      omega
    rw [hwalk, stepBT_skip P bars _ i2 hskip, hC]
    simpa using hs1a
  · have hnoskip : ¬ ((i2 : ℤ) - (stepBT P bars ([], -(P.cooldown : ℤ) - 1) i1).2
        < (P.cooldown : ℤ)) := by
      rw [hs1b]
      omega
    obtain ⟨hs2b, hs2a⟩ := stepBT_qual P bars _ i2 hnoskip hq2
    rw [hwalk, hC, hs2a, hs1a]
    simp

/-- Witness for C2: on a synthetic series with qualifying touches at bars
14 and 17 (three = cooldown - 1 apart) exactly one event is recorded; with
qualifying touches at bars 14 and 18 (four = cooldown apart) both are. -/
theorem claim_C2_witness :
    (walkTouches btPC2 barsC2a).map TouchEv.idx = [14]
    ∧ (walkTouches btPC2 barsC2b).map TouchEv.idx = [14, 18] := by
  constructor
  · exact (claim_C2_cooldown_counting btPC2 barsC2a 14 17 (by decide) (by decide)
      (by with_unfolding_all decide) (by with_unfolding_all decide)).1
      (by decide)
  · exact (claim_C2_cooldown_counting btPC2 barsC2b 14 18 (by decide) (by decide)
      (by with_unfolding_all decide) (by with_unfolding_all decide)).2.1 (by decide)

lemma epFold_inv (l : List Sig) :
    0 ≤ (l.foldl epStep (none, 0)).2
    ∧ (∀ c ∈ l, c.score ≤ (l.foldl epStep (none, 0)).2)
    ∧ ((l.foldl epStep (none, 0)).1 = none →
        (l.foldl epStep (none, 0)).2 = 0 ∧ ∀ c ∈ l, c.score ≤ 0)
    ∧ (∀ sg, (l.foldl epStep (none, 0)).1 = some sg →
        (l.foldl epStep (none, 0)).2 = sg.score ∧ 0 < sg.score
        ∧ ∃ pre post, l = pre ++ sg :: post ∧ (∀ c ∈ pre, c.score < sg.score)
            ∧ (∀ c ∈ post, c.score ≤ sg.score)) := by
  induction l using List.reverseRecOn with
  | nil => simp
  | append_singleton t c ih =>
    obtain ⟨ih0, ihub, ihnone, ihsome⟩ := ih
    rw [List.foldl_append, List.foldl_cons, List.foldl_nil]
    by_cases hlt : (t.foldl epStep (none, 0)).2 < c.score
    · have hstep : epStep (t.foldl epStep (none, 0)) c = (some c, c.score) := by
        simp [epStep, hlt]
      rw [hstep]
      refine ⟨by linarith, ?_, ?_, ?_⟩
      · intro d hd
        rcases List.mem_append.mp hd with h | h
        · exact le_of_lt (lt_of_le_of_lt (ihub d h) hlt)
        · rw [List.mem_singleton.mp h]
      · intro h
        cases h
      · intro sg hsg
        have hcsg : sg = c := by
          cases hsg
          rfl
        subst hcsg
        refine ⟨rfl, by linarith, t, [], rfl, ?_, ?_⟩
        · intro d hd
          exact lt_of_le_of_lt (ihub d hd) hlt
        · intro d hd
          cases hd
    · have hstep : epStep (t.foldl epStep (none, 0)) c = t.foldl epStep (none, 0) := by
        simp [epStep, hlt]
      rw [hstep]
      refine ⟨ih0, ?_, ?_, ?_⟩
      · intro d hd
        rcases List.mem_append.mp hd with h | h
        · exact ihub d h
        · rw [List.mem_singleton.mp h]
          exact le_of_not_lt hlt
      · intro h
        obtain ⟨h2, hall⟩ := ihnone h
        refine ⟨h2, fun d hd => ?_⟩
        rcases List.mem_append.mp hd with hm | hm
        · exact hall d hm
        · rw [List.mem_singleton.mp hm]
          rw [h2] at hlt
          exact le_of_not_lt hlt
      · intro sg hsg
        obtain ⟨h2, hpos, pre, post, hdec, hpre, hpost⟩ := ihsome sg hsg
        refine ⟨h2, hpos, pre, post ++ [c], ?_, hpre, ?_⟩
        · simp [hdec]
        · intro d hd
          rcases List.mem_append.mp hd with hm | hm
          · exact hpost d hm
          · rw [List.mem_singleton.mp hm]
            rw [h2] at hlt
            exact le_of_not_lt hlt

/-- Counterexample to claim C6 as stated: the source iterates
range(-lookback, 0), i.e. the OLDEST of the lookback bars first, and only a
strictly greater score replaces the running best.  On a series with two
equal-scoring touch candidates the code retains the candidate of the bar
one day back, while a most-recent-first examination (the claim's order)
retains the most recent bar; both orders agree the maximum score is 28. -/
theorem claim_C6_counterexample :
    (epSearchBest epPC6 barsC6).2 = (epSearchSpecRecentFirst epPC6 barsC6).2
    ∧ (epSearchBest epPC6 barsC6).1.map Sig.ago = some 1
    ∧ (epSearchSpecRecentFirst epPC6 barsC6).1.map Sig.ago = some 0 := by
  refine ⟨?_, ?_, ?_⟩ <;> with_unfolding_all decide

/-- Claim C6 (amended: the search examines the most recent lookback bars
OLDEST first, so on exact score ties the earlier-examined, older bar is
retained; the rest is as claimed): candidate scores are weighted by the
recency factor max(0, 1 - 0.3 ago) with values 1, 0.7, 0.4 and never
negative; within a bar the fast MA is examined before the mid MA, so it is
preferred on ties; and the retained signal is exactly the first candidate
in examination order attaining the (positive) maximal score — no signal is
retained iff no candidate scores above zero. -/
theorem claim_C6_signal_search (P : EPParams) (bars : List Bar) :
    (epRecency 0 = 1 ∧ epRecency 1 = 7/10 ∧ epRecency 2 = 2/5
      ∧ ∀ a, 0 ≤ epRecency a)
    ∧ ((epSearchBest P bars).1 = none ↔ ∀ c ∈ epCandidates P bars, c.score ≤ 0)
    ∧ (∀ sg, (epSearchBest P bars).1 = some sg →
        sg ∈ epCandidates P bars ∧ 0 < sg.score
        ∧ (∀ c ∈ epCandidates P bars, c.score ≤ sg.score)
        ∧ ∃ pre post, epCandidates P bars = pre ++ sg :: post
            ∧ (∀ c ∈ pre, c.score < sg.score)) := by
  obtain ⟨h0, hub, hnone, hsome⟩ := epFold_inv (epCandidates P bars)
  refine ⟨⟨by norm_num [epRecency], by norm_num [epRecency],
    by norm_num [epRecency], fun a => le_max_left 0 _⟩, ?_, ?_⟩
  · constructor
    · intro h
      exact (hnone h).2
    · intro hall
      cases hb : (epSearchBest P bars).1 with
      | none => rfl
      | some sg =>
        exfalso
        obtain ⟨_, hpos, pre, post, hdec, _, _⟩ := hsome sg hb
        have hmem : sg ∈ epCandidates P bars := by
          rw [hdec]
          exact List.mem_append.mpr (Or.inr (List.mem_cons_self sg post))
        linarith [hall sg hmem]
  · intro sg hsg
    obtain ⟨h2, hpos, pre, post, hdec, hpre, hpost⟩ := hsome sg hsg
    have hmem : sg ∈ epCandidates P bars := by
      rw [hdec]
      exact List.mem_append.mpr (Or.inr (List.mem_cons_self sg post))
    refine ⟨hmem, hpos, fun c hc => ?_, pre, post, hdec, hpre⟩
    rw [← h2]
    exact hub c hc

/-- Witness for C6: on the tie fixture the retained signal is the TOUCH on
the fast MA of the bar one day back, its score 28 is maximal among all
candidates, and every earlier-examined candidate scored strictly less. -/
theorem claim_C6_witness :
    (⟨"TOUCH", "MA2", 0, 101/100, 1, 28⟩ : Sig) ∈ epCandidates epPC6 barsC6
    ∧ (0 : ℚ) < (⟨"TOUCH", "MA2", 0, 101/100, 1, 28⟩ : Sig).score
    ∧ (∀ c ∈ epCandidates epPC6 barsC6,
        c.score ≤ (⟨"TOUCH", "MA2", 0, 101/100, 1, 28⟩ : Sig).score) := by
  obtain ⟨hmem, hpos, hub, _⟩ := (claim_C6_signal_search epPC6 barsC6).2.2
    ⟨"TOUCH", "MA2", 0, 101/100, 1, 28⟩ (by with_unfolding_all decide)
  exact ⟨hmem, hpos, hub⟩

lemma sum_map_zero (l : List ℕ) : (l.map (fun _ => (0 : ℕ))).sum = 0 := by
  induction l with
  | nil => rfl
  | cons a t ih => simp [ih]

lemma sum_map_addf (l : List ℕ) (f g : ℕ → ℕ) :
    (l.map (fun p => f p + g p)).sum = (l.map f).sum + (l.map g).sum := by
  induction l with
  | nil => rfl
  | cons a t ih =>
    simp only [List.map_cons, List.sum_cons, ih]
    omega

lemma sum_map_ite_zero (l : List ℕ) (a : ℕ) (ha : a ∉ l) :
    (l.map (fun p => if a = p then 1 else 0)).sum = 0 := by
  induction l with
  | nil => rfl
  | cons b t ih =>
    have hab : a ≠ b := fun h => ha (h ▸ List.mem_cons_self b t)
    simp [hab, ih (fun h => ha (List.mem_cons_of_mem b h))]

lemma sum_map_ite_one (l : List ℕ) (a : ℕ) (hnd : l.Nodup) (ha : a ∈ l) :
    (l.map (fun p => if a = p then 1 else 0)).sum = 1 := by
  induction l with
  | nil => cases ha
  | cons b t ih =>
    rcases List.mem_cons.mp ha with h | h
    · subst h
      have hnotmem : a ∉ t := (List.nodup_cons.mp hnd).1
      simp [sum_map_ite_zero t a hnotmem]
    · have hab : a ≠ b := fun he => (List.nodup_cons.mp hnd).1 (he ▸ h)
      simp [hab, ih (List.nodup_cons.mp hnd).2 h]

lemma count_partition (ps : List ℕ) (ts : List TouchEv)
    (h : ∀ t ∈ ts, t.ma_period ∈ ps) :
    (ps.dedup.map (fun p => (ts.filter (fun t => t.ma_period = p)).length)).sum
      = ts.length := by
  induction ts with
  | nil => simpa using sum_map_zero ps.dedup
  | cons t ts ih =>
    have hmem : t.ma_period ∈ ps := h t (List.mem_cons_self t ts)
    have hrec := ih (fun u hu => h u (List.mem_cons_of_mem t hu))
    have hsplit : ∀ p ∈ ps.dedup,
        (fun p => ((t :: ts).filter (fun u => u.ma_period = p)).length) p
          = (fun p => (if t.ma_period = p then 1 else 0)
              + (ts.filter (fun u => u.ma_period = p)).length) p := by
      intro p _
      by_cases hp : t.ma_period = p
      · simp [List.filter_cons, hp]
        omega
      · simp [List.filter_cons, hp]
    rw [List.map_congr_left hsplit, sum_map_addf,
      sum_map_ite_one ps.dedup t.ma_period (List.nodup_dedup ps)
        (List.mem_dedup.mpr hmem), hrec]
    simp only [List.length_cons]
    omega

lemma firstTouchGo_mem (cs : List ℚ) (lowv pct : ℚ) (i : ℕ) (l : List ℕ) (p : ℕ)
    (h : firstTouchGo cs lowv pct i l = some p) : p ∈ l := by
  induction l with
  | nil => cases h
  | cons q t ih =>
    cases hm : rmean cs q i with
    | some mav =>
      by_cases ht : isTouch lowv mav pct
      · simp only [firstTouchGo, hm, ht, if_true] at h
        obtain rfl : q = p := Option.some_inj.mp h
        exact List.mem_cons_self _ t
      · simp only [firstTouchGo, hm, ht, if_false] at h
        exact List.mem_cons_of_mem q (ih h)
    | none =>
      simp only [firstTouchGo, hm] at h
      exact List.mem_cons_of_mem q (ih h)

lemma foldl_stepBT_mem (P : BTParams) (bars : List Bar) (l : List ℕ)
    (st : List TouchEv × ℤ) (h : ∀ t ∈ st.1, t.ma_period ∈ P.ma_periods) :
    ∀ t ∈ (l.foldl (stepBT P bars) st).1, t.ma_period ∈ P.ma_periods := by
  induction l generalizing st with
  | nil => exact h
  | cons a tl ih =>
    rw [List.foldl_cons]
    apply ih
    by_cases hc : (a : ℤ) - st.2 < (P.cooldown : ℤ)
    · rw [stepBT_skip P bars st a hc]
      exact h
    · cases ha : alignedAtBT P bars a with
      | false =>
        rw [show stepBT P bars st a = st from by simp [stepBT, hc, ha]]
        exact h
      | true =>
        cases hft : firstTouch P bars a with
        | none =>
          rw [show stepBT P bars st a = st from by simp [stepBT, hc, ha, hft]]
          exact h
        | some p =>
          cases hst : stratFn P.strategy bars a P.hold_days with
          | none =>
            rw [show stepBT P bars st a = st from by simp [stepBT, hc, ha, hft, hst]]
            exact h
          | some r =>
            rw [show stepBT P bars st a
                = (st.1 ++ [⟨a, p, r, decide (0 < r)⟩], (a : ℤ)) from by
              simp [stepBT, hc, ha, hft, hst]]
            intro t htm
            rcases List.mem_append.mp htm with hm | hm
            · exact h t hm
            · rw [List.mem_singleton.mp hm]
              have hp : p ∈ sortedPeriods P.ma_periods := by
                simp only [firstTouch] at hft
                exact firstTouchGo_mem _ _ _ _ _ p hft
              simp only [sortedPeriods] at hp
              exact ((List.perm_insertionSort (· ≤ ·) P.ma_periods).mem_iff).mp hp

/-- Claim C10: for every series and configuration, the per-MA touch countsof
the returned metrics (one dict key per distinct configured period) sum to
total_touches: every recorded event is attributed to exactly one MA period,
the fastest touching one. -/
theorem claim_C10_per_ma_partition (B : BTParams) (bars : List Bar) :
    ((B.ma_periods.dedup).map
        (fun p => (backtest_ma_sensitivity B bars).ma_touches p)).sum
      = (backtest_ma_sensitivity B bars).total_touches := by
  unfold backtest_ma_sensitivity
  by_cases hlen : bars.length < btMinPeriod B + 50
  · rw [if_pos hlen]
    simpa [emptyResult] using sum_map_zero B.ma_periods.dedup
  · rw [if_neg hlen]
    unfold computeMetrics
    by_cases hemp : (walkTouches B bars).isEmpty
    · rw [if_pos hemp]
      simpa [emptyResult] using sum_map_zero B.ma_periods.dedup
    · rw [if_neg hemp]
      dsimp only
      have hall : ∀ t ∈ walkTouches B bars, t.ma_period ∈ B.ma_periods := by
        intro t ht
        rw [walkTouches] at ht
        exact foldl_stepBT_mem B bars _ _ (fun u hu => absurd hu (by simp)) t ht
      have hfun : ∀ p ∈ B.ma_periods.dedup,
          (fun p => if p ∈ B.ma_periods then
              ((walkTouches B bars).filter (fun t => t.ma_period = p)).length
            else 0) p
            = (fun p =>
                ((walkTouches B bars).filter (fun t => t.ma_period = p)).length) p :=
        fun p hp => if_pos (List.mem_dedup.mp hp)
      rw [List.map_congr_left hfun,
        count_partition B.ma_periods (walkTouches B bars) hall]
